import Mathlib

/-!
Verification of the amtool copy engine (src/shared.ts and the cp command
module) against its specification. JavaScript strings are modelled as lists
of characters, JavaScript values as the inductive type `JSValue`, and the
effectful operations (`writeToLocation`, `writeAMFS`, the watch loop) as
pure functions returning either an `Except` error or a description of the
I/O they perform.
-/

namespace AMTool

/-- A JavaScript string, modelled as its sequence of characters. -/
abbrev JSStr := List Char

/-- JavaScript `s.split(sep)` for a one-character separator `sep`: the
segments between occurrences of `sep`, keeping empty segments, with
`"".split(sep) == [""]`. The result is never the empty list. -/
def splitChar (sep : Char) : List Char → List (List Char)
  | [] => [[]]
  | c :: rest =>
    if c = sep then [] :: splitChar sep rest
    else (c :: (splitChar sep rest).headI) :: (splitChar sep rest).tail

/-- JavaScript `parts.join(sep)` for a one-character separator. -/
def joinChar (sep : Char) : List (List Char) → List Char
  | [] => []
  | [x] => x
  | x :: xs => x ++ sep :: joinChar sep xs

/-- The `Location` union of shared.ts: an automerge document plus path, a
filesystem path, or the standard input/output pipe. -/
inductive Location : Type where
  | automerge (docUrl : JSStr) (path : List JSStr)
  | file (path : JSStr)
  | pipe
deriving Repr, DecidableEq

/-- The scheme marker `"automerge:"` that `parseLocation` tests with
`s.startsWith`. -/
def schemeMarker : JSStr := ("automerge:").toList

/-- shared.ts `parseLocation`: `"-"` is the pipe; a string starting with
`"automerge:"` is split on `"/"`, the first segment becoming `docUrl` and
the remaining segments the path (`splitChar` never returns `[]`, so `headI`
is the first segment); anything else is a file path. -/
def parseLocation (s : JSStr) : Location :=
  if s = ("-").toList then Location.pipe
  else if schemeMarker.isPrefixOf s then
    Location.automerge ((splitChar '/' s).headI) ((splitChar '/' s).tail)
  else Location.file s

/-- shared.ts `stringifyLocation`: an automerge location joins
`[docUrl, ...path]` with `"/"`; a file location is its path; the pipe
returns `l.type`, which is the literal tag `"pipe"`. -/
def stringifyLocation : Location → JSStr
  | Location.automerge docUrl path => joinChar '/' (docUrl :: path)
  | Location.file path => path
  | Location.pipe => ("pipe").toList

/-- A JavaScript value as the copy engine can encounter it: `undefined`,
`null`, booleans, (integer) numbers, strings, `Uint8Array` byte sequences,
arrays, and string-keyed objects whose fields are kept in property order. -/
inductive JSValue : Type where
  | undef
  | null
  | bool (b : Bool)
  | num (n : Int)
  | str (s : JSStr)
  | bytes (bs : List Nat)
  | arr (elems : List JSValue)
  | obj (fields : List (JSStr × JSValue))

instance : Inhabited JSValue := ⟨JSValue.undef⟩

/-- JavaScript `!!v && typeof v === "object"`, which on every value agrees
with `typeof v === "object" && v !== null`: objects, arrays and byte arrays
qualify; `null` (the only falsy value of object type) and the primitives do
not. -/
def jsIsObject : JSValue → Bool
  | JSValue.obj _ => true
  | JSValue.arr _ => true
  | JSValue.bytes _ => true
  | _ => false

/-- Look a key up in an object's field list (first match). -/
def lookupField : List (JSStr × JSValue) → JSStr → Option JSValue
  | [], _ => none
  | (k, v) :: rest, key => if k = key then some v else lookupField rest key

/-- JavaScript property assignment on an object's field list: an existing
key keeps its position and gets the new value, a new key is appended. -/
def setField : List (JSStr × JSValue) → JSStr → JSValue → List (JSStr × JSValue)
  | [], key, v => [(key, v)]
  | (k, w) :: rest, key, v =>
    if k = key then (k, v) :: rest else (k, w) :: setField rest key v

/-- JavaScript `String(n)` for a natural number (canonical decimal). -/
def natToJsStr (n : Nat) : JSStr := (Nat.repr n).toList

/-- The property key `"length"`. -/
def lengthKey : JSStr := ("length").toList

/-- Reading `v[key]`: `none` models a thrown `TypeError` (reading a property
of `undefined` or `null`); an object yields the field's value or
`undefined`; arrays and byte arrays yield the element at a canonical
numeric index and their `length`, `undefined` otherwise; a string yields
its `length` or the one-character string at a canonical index; reading any
other property of a primitive is modelled as `undefined` (no code path
under verification reads one). -/
def getProp : JSValue → JSStr → Option JSValue
  | JSValue.undef, _ => none
  | JSValue.null, _ => none
  | JSValue.obj fs, k => some ((lookupField fs k).getD JSValue.undef)
  | JSValue.arr xs, k =>
    if k = lengthKey then some (JSValue.num xs.length)
    else some ((((xs.enum.find? (fun e => natToJsStr e.1 == k)).map Prod.snd).getD JSValue.undef))
  | JSValue.bytes bs, k =>
    if k = lengthKey then some (JSValue.num bs.length)
    else some ((((bs.enum.find? (fun e => natToJsStr e.1 == k)).map
      (fun e => JSValue.num (Int.ofNat e.2))).getD JSValue.undef))
  | JSValue.str s, k =>
    if k = lengthKey then some (JSValue.num s.length)
    else some ((((s.enum.find? (fun e => natToJsStr e.1 == k)).map
      (fun e => JSValue.str [e.2])).getD JSValue.undef))
  | _, _ => some JSValue.undef

/-- Writing `v[key] = w` in strict mode: `none` models a thrown `TypeError`
(assignment on `undefined`, `null` or a primitive). Objects update or
append the field; arrays update an existing canonical index (extending an
array past its end and byte-array element writes are not modelled: no code
path under verification performs them). -/
def assignProp : JSValue → JSStr → JSValue → Option JSValue
  | JSValue.obj fs, k, v => some (JSValue.obj (setField fs k v))
  | JSValue.arr xs, k, v =>
    (match xs.enum.find? (fun e => natToJsStr e.1 == k) with
     | some e => some (JSValue.arr (xs.set e.1 v))
     | none => none)
  | _, _, _ => none

/-- shared.ts `getAtPath`: step into each key in order; `none` models the
`TypeError` thrown when an intermediate step reads a property of
`undefined` or `null`. -/
def getAtPath : JSValue → List JSStr → Option JSValue
  | v, [] => some v
  | v, k :: rest =>
    match getProp v k with
    | none => none
    | some w => getAtPath w rest

/-- shared.ts `setAtPath`: walk all but the last key exactly as `getAtPath`
does, then assign the value under the last key on the reached object. The
walk mutates in place; the pure model re-inserts each updated child, which
agrees because the values are trees. With an empty path JavaScript reads
`path[-1]`, which is `undefined`, and assigns under the coerced property
key `"undefined"`. `none` models a thrown `TypeError`. -/
def setAtPath : JSValue → List JSStr → JSValue → Option JSValue
  | doc, [], v => assignProp doc (("undefined").toList) v
  | doc, [k], v => assignProp doc k v
  | doc, k :: rest, v =>
    match getProp doc k with
    | none => none
    | some child =>
      match setAtPath child rest v with
      | none => none
      | some child' => assignProp doc k child'

/-- The claim C8 precondition, from the spec's words: the root and every
intermediate step along the path is an object, each intermediate key
present and mapping to an object (the final key need not pre-exist). -/
def objSkeleton : JSValue → List JSStr → Bool
  | JSValue.obj _, [_] => true
  | JSValue.obj fs, k :: rest =>
    (match lookupField fs k with
     | some w => objSkeleton w rest
     | _ => false)
  | _, _ => false

/-- JavaScript `Object.entries(v)` (also the pairs a `for (const key in v)`
loop reads, for values without inherited enumerable properties): an
object's own fields in property order; an array's elements keyed by their
decimal indices; a byte array's bytes keyed by their decimal indices;
nothing for a primitive. -/
def jsEntries : JSValue → List (JSStr × JSValue)
  | JSValue.obj fs => fs
  | JSValue.arr xs => xs.enum.map (fun e => (natToJsStr e.1, e.2))
  | JSValue.bytes bs => bs.enum.map (fun e => (natToJsStr e.1, JSValue.num (Int.ofNat e.2)))
  | _ => []

/-- JavaScript `Object.values(v)`: the values of `jsEntries`. -/
def jsOwnValues : JSValue → List JSValue
  | JSValue.obj fs => fs.map Prod.snd
  | JSValue.arr xs => xs
  | JSValue.bytes bs => bs.map (fun b => JSValue.num (Int.ofNat b))
  | _ => []

/-- The merge loop of `writeToLocation` at an empty document path:
`for (const key in val) doc[key] = val[key]`, assigning each entry in
order. `none` models a thrown `TypeError` (never hit when the target is an
object). -/
def assignEntries : JSValue → List (JSStr × JSValue) → Option JSValue
  | d, [] => some d
  | d, (k, v) :: rest =>
    match assignProp d k v with
    | some d' => assignEntries d' rest
    | none => none

/-- The value the sequential assignment loop leaves under key `k`: the
value of the last entry bearing `k`, if any (a JavaScript object cannot
actually carry a key twice, so for entries read from an object this is
simply the entry for `k`). -/
def lastEntryValue : List (JSStr × JSValue) → JSStr → Option JSValue
  | [], _ => none
  | (k0, v0) :: rest, k =>
    match lastEntryValue rest k with
    | some v => some v
    | none => if k0 = k then some v0 else none

/-- The property key `"contentType"`. -/
def contentTypeKey : JSStr := ("contentType").toList

/-- The property key `"contents"`. -/
def contentsKey : JSStr := ("contents").toList

/-- shared.ts `isAMFSFile`: the value is a truthy object with a
`contentType` field holding a string and a `contents` field holding a
string or a byte sequence (`"contentType" in node` together with the
`typeof` test on the field's value amounts to the field being present with
the right shape; other fields are not constrained). -/
def isAMFSFile (v : JSValue) : Bool :=
  match v with
  | JSValue.obj fs =>
    (match lookupField fs contentTypeKey with
     | some (JSValue.str _) => true
     | _ => false) &&
    (match lookupField fs contentsKey with
     | some (JSValue.str _) => true
     | some (JSValue.bytes _) => true
     | _ => false)
  | _ => false

mutual

/-- shared.ts `isAMFSDirectory`: a truthy object all of whose own property
values satisfy `isAMFS`. The own values of a byte array are numbers, and on
a number the directory half of `isAMFS` reduces to the `typeof` test
(`jsIsObject`, false) because a number's own-value list is empty, so the
byte-array case applies only the two non-recursive tests to each byte. The
helper functions inline `isAMFS node = isAMFSFile node || isAMFSDirectory
node` for each own value. -/
def isAMFSDirectory (v : JSValue) : Bool :=
  jsIsObject v &&
  match v with
  | JSValue.obj fs => isAMFSFields fs
  | JSValue.arr xs => isAMFSElems xs
  | JSValue.bytes bs =>
    bs.all (fun b => isAMFSFile (JSValue.num (Int.ofNat b)) || jsIsObject (JSValue.num (Int.ofNat b)))
  | _ => true

/-- `Object.values(obj).every(isAMFS)` over an object's field list. -/
def isAMFSFields : List (JSStr × JSValue) → Bool
  | [] => true
  | (_, v) :: rest => (isAMFSFile v || isAMFSDirectory v) && isAMFSFields rest

/-- `Object.values(arr).every(isAMFS)` over an array's elements. -/
def isAMFSElems : List JSValue → Bool
  | [] => true
  | v :: rest => (isAMFSFile v || isAMFSDirectory v) && isAMFSElems rest

end

/-- shared.ts `isAMFS`: a file or a directory. -/
def isAMFS (v : JSValue) : Bool := isAMFSFile v || isAMFSDirectory v

/-- Text or binary file contents (a JavaScript string or `Uint8Array`). -/
inductive IOData : Type where
  | text (s : JSStr)
  | binary (bs : List Nat)
deriving Repr, DecidableEq

/-- One observable I/O action at the destination. -/
inductive Effect : Type where
  | stdoutWrite (d : IOData)
  | fileWrite (path : JSStr) (d : IOData)
  | ensureDir (path : JSStr)
deriving Repr, DecidableEq

/-- The `contents` field of a value that passed `isAMFSFile`. The fallback
is unreachable: `writeAMFS` reads it only after `isAMFSFile` held. -/
def amfsContents (v : JSValue) : IOData :=
  match v with
  | JSValue.obj fs =>
    (match lookupField fs contentsKey with
     | some (JSValue.str s) => IOData.text s
     | some (JSValue.bytes bs) => IOData.binary bs
     | _ => IOData.text [])
  | _ => IOData.text []

/-- The recursion of `writeAMFS` over the entries of a byte array: each
entry's value is a number, which is never an `isAMFSFile`, has no entries
of its own, and so produces exactly one `ensureDirSync` (this inlines the
non-recursive value of `writeAMFS` on a number). -/
def writeByteEntries : List Nat → Nat → JSStr → List Effect
  | [], _, _ => []
  | _ :: rest, i, path =>
    Effect.ensureDir (path ++ '/' :: natToJsStr i) :: writeByteEntries rest (i + 1) path

mutual

/-- shared.ts `writeAMFS` as the list of filesystem actions it performs, in
order: a file value is written to `path`; anything else is treated as a
directory (`ensureDirSync(path)`, then each entry of
`Object.entries(directoryOrFile)` recursively under `path + "/" + name`).
A primitive has no entries and yields just the `ensureDirSync`. -/
def writeAMFS (v : JSValue) (path : JSStr) : List Effect :=
  if isAMFSFile v then [Effect.fileWrite path (amfsContents v)]
  else
    Effect.ensureDir path ::
    (match v with
     | JSValue.obj fs => writeFields fs path
     | JSValue.arr xs => writeElems xs 0 path
     | JSValue.bytes bs => writeByteEntries bs 0 path
     | _ => [])

/-- The `Object.entries(...).forEach` recursion over an object's fields. -/
def writeFields : List (JSStr × JSValue) → JSStr → List Effect
  | [], _ => []
  | (name, node) :: rest, path =>
    writeAMFS node (path ++ '/' :: name) ++ writeFields rest path

/-- The `Object.entries(...).forEach` recursion over an array's elements,
whose entry names are the decimal indices `i`, `i + 1`, ... -/
def writeElems : List JSValue → Nat → JSStr → List Effect
  | [], _, _ => []
  | node :: rest, i, path =>
    writeAMFS node (path ++ '/' :: natToJsStr i) ++ writeElems rest (i + 1) path

end

/-- One hexadecimal digit (lower case), for control-character escapes. -/
def hexDigit (n : Nat) : Char :=
  (("0123456789abcdef").toList.getD n '0')

/-- JSON string escaping of one character, as `JSON.stringify` performs
it: quote and backslash are escaped, the named control escapes are used,
any other control character becomes a `\u00xx` escape, and everything else
passes through. -/
def escChar (c : Char) : JSStr :=
  if c = '"' then ['\\', '"']
  else if c = '\\' then ['\\', '\\']
  else if c = '\x08' then ['\\', 'b']
  else if c = '\x0c' then ['\\', 'f']
  else if c = '\n' then ['\\', 'n']
  else if c = '\r' then ['\\', 'r']
  else if c = '\t' then ['\\', 't']
  else if c.toNat < 32 then
    ['\\', 'u', '0', '0', hexDigit (c.toNat / 16), hexDigit (c.toNat % 16)]
  else [c]

/-- `QuoteJSONString`: the string surrounded by double quotes, each
character escaped. -/
def quoteJSONString (s : JSStr) : JSStr :=
  '"' :: (s.flatMap escChar) ++ ['"']

/-- The base64 alphabet. -/
def b64Char (n : Nat) : Char :=
  (("ABCDEFGHIJKLMNOPQRSTUVWXYZabcdefghijklmnopqrstuvwxyz0123456789+/").toList.getD n 'A')

/-- `Buffer.from(bytes).toString("base64")`: standard base64 with `=`
padding, three bytes to four characters (byte values are below 256). -/
def base64Encode : List Nat → JSStr
  | [] => []
  | [a] => [b64Char (a / 4), b64Char (a % 4 * 16), '=', '=']
  | [a, b] => [b64Char (a / 4), b64Char (a % 4 * 16 + b / 16), b64Char (b % 16 * 4), '=']
  | a :: b :: c :: rest =>
    b64Char (a / 4) :: b64Char (a % 4 * 16 + b / 16) :: b64Char (b % 16 * 4 + c / 64) ::
      b64Char (c % 64) :: base64Encode rest

/-- The opening brace character. -/
def openBrace : Char := '\x7b'

/-- The closing brace character. -/
def closeBrace : Char := '\x7d'

/-- The bracketed part of `JSON.stringify`'s array/object serialization:
no items give the empty pair; with an empty gap the items are joined with
commas; otherwise each item stands on its own line at the deeper
indentation `ind`, and the closer returns to the enclosing indentation
`stepback`. -/
def renderBracketed (opener closer : Char) (gap ind stepback : JSStr)
    (items : List JSStr) : JSStr :=
  if items.isEmpty then [opener, closer]
  else if gap.isEmpty then opener :: (List.intercalate [','] items) ++ [closer]
  else
    opener :: '\n' :: ind ++ (List.intercalate (',' :: '\n' :: ind) items) ++
      '\n' :: stepback ++ [closer]

mutual

/-- `JSON.stringify`'s serialization of one value with the replacer of
shared.ts already applied: a `Uint8Array` becomes its base64 string.
`gap` is the indentation unit, `ind` the current indentation. `none`
models the JavaScript result `undefined` (for `undefined` values, which
arrays render as `"null"` and objects omit). -/
def serJSON (gap ind : JSStr) : JSValue → Option JSStr
  | JSValue.undef => none
  | JSValue.null => some (("null").toList)
  | JSValue.bool b => some ((if b then ("true") else ("false")).toList)
  | JSValue.num n => some ((toString n).toList)
  | JSValue.str s => some (quoteJSONString s)
  | JSValue.bytes bs => some (quoteJSONString (base64Encode bs))
  | JSValue.arr xs =>
    some (renderBracketed '[' ']' gap (ind ++ gap) ind (serItems gap (ind ++ gap) xs))
  | JSValue.obj fs =>
    some (renderBracketed openBrace closeBrace gap (ind ++ gap) ind
      (serMembers gap (ind ++ gap) fs))

/-- Array elements: an element serializing to `undefined` renders as
`"null"`. -/
def serItems (gap ind : JSStr) : List JSValue → List JSStr
  | [] => []
  | v :: rest => ((serJSON gap ind v).getD (("null").toList)) :: serItems gap ind rest

/-- Object members `"key": value`; with a non-empty gap a space follows the
colon; a member whose value serializes to `undefined` is omitted. -/
def serMembers (gap ind : JSStr) : List (JSStr × JSValue) → List JSStr
  | [] => []
  | (k, v) :: rest =>
    match serJSON gap ind v with
    | none => serMembers gap ind rest
    | some sv =>
      (quoteJSONString k ++ ':' :: (if gap.isEmpty then [] else [' ']) ++ sv) ::
        serMembers gap ind rest

end

/-- `JSON.stringify(val, replacer, space)` for the two spaces the source
passes (`2` for files, `undefined` for the pipe): a numeric space of `n`
gives `min n 10` spaces of indentation. -/
def jsonStringify (v : JSValue) (space : Option Nat) : Option JSStr :=
  serJSON (match space with
           | some n => List.replicate (min n 10) ' '
           | none => []) [] v

/-- The serialized text `writeToLocation` writes in `"json"` mode:
`JSON.stringify(val, replacer, space) + "\n"`. When `JSON.stringify`
returns `undefined`, JavaScript's `+` coerces it to the string
`"undefined"`; the `"\n"` is appended in every case. -/
def jsonText (v : JSValue) (space : Option Nat) : JSStr :=
  ((jsonStringify v space).getD (("undefined").toList)) ++ ['\n']

/-- An error as the copy engine can raise it: `amt` is the distinguished
recoverable class `AMTError` of shared.ts (the spec's ConfigurationError /
ShapeError); `runtime` is any other runtime failure (`TypeError` and the
like), which nothing in the source catches. -/
inductive JSError : Type where
  | amt (message : String)
  | runtime (message : String)
deriving Repr, DecidableEq

/-- The result of one write: either a list of filesystem/stream actions, or
the destination document's new contents. An `Except.error` performs no
action and leaves the destination document unchanged (a callback throwing
inside `handle.change` aborts the transaction). -/
inductive WriteResult : Type where
  | fsOps (ops : List Effect)
  | docChange (newDoc : JSValue)

/-- The three value modes of shared.ts (`ValueType`). -/
inductive ValueType : Type where
  | fs
  | raw
  | json
deriving Repr, DecidableEq

/-- The `"raw"` branch of `writeToLocation`: the value must already be a
string or a byte sequence. -/
def rawPayload (val : JSValue) : Except JSError IOData :=
  match val with
  | JSValue.str s => Except.ok (IOData.text s)
  | JSValue.bytes bs => Except.ok (IOData.binary bs)
  | _ => Except.error (JSError.amt ("value must be a string or bytes to copy in raw mode"))

/-- `stringVal` of `writeToLocation` for a file or pipe destination: raw
mode passes the value through, otherwise it is `jsonText`. -/
def stringPayload (t : ValueType) (val : JSValue) (space : Option Nat) :
    Except JSError IOData :=
  match t with
  | ValueType.raw => rawPayload val
  | _ => Except.ok (IOData.text (jsonText val space))

/-- shared.ts `writeToLocation`, as a pure function of the destination, the
value, the value type and (for a document destination) the destination
document's current contents `doc`. Mode `"fs"` requires a file destination
and an `isAMFS` value and performs `writeAMFS`; a file or pipe destination
otherwise receives the raw or serialized payload (`space` is `2` for a
file, `undefined` for the pipe); a document destination with an empty path
requires a non-null object and assigns its entries one by one into the
document root, and with a non-empty path assigns the value at the path
(lines 164-168 duplicate `setAtPath`). -/
def writeToLocation (dst : Location) (val : JSValue) (t : ValueType) (doc : JSValue) :
    Except JSError WriteResult :=
  match t, dst with
  | ValueType.fs, Location.file path =>
    if isAMFS val then Except.ok (WriteResult.fsOps (writeAMFS val path))
    else Except.error (JSError.amt ("value must be an automerge file object to copy in fs mode"))
  | ValueType.fs, _ =>
    Except.error (JSError.amt ("value type \"fs\" can be only written to file system"))
  | _, Location.pipe =>
    (match stringPayload t val none with
     | Except.ok d => Except.ok (WriteResult.fsOps [Effect.stdoutWrite d])
     | Except.error e => Except.error e)
  | _, Location.file path =>
    (match stringPayload t val (some 2) with
     | Except.ok d => Except.ok (WriteResult.fsOps [Effect.fileWrite path d])
     | Except.error e => Except.error e)
  | _, Location.automerge _ path =>
    if path.isEmpty then
      if jsIsObject val then
        match assignEntries doc (jsEntries val) with
        | some d => Except.ok (WriteResult.docChange d)
        | none => Except.error (JSError.runtime ("TypeError"))
      else Except.error (JSError.amt ("only an object can be written to a document root"))
    else
      match setAtPath doc path val with
      | some d => Except.ok (WriteResult.docChange d)
      | none => Except.error (JSError.runtime ("TypeError"))

/-- The `cp` command's `cpFromAutomerge` (unnamed source module), reduced to
the processing of one source snapshot: the up-front guard rejects a raw
copy whose destination is also an automerge document; otherwise `onDoc`
reads the value at the source path and writes it to the destination
(`srcDoc` is the source document's snapshot, `dstDoc` the destination
document's contents when the destination is a document). -/
def cpFromAutomergeOnce (srcPath : List JSStr) (dst : Location) (t : ValueType)
    (srcDoc dstDoc : JSValue) : Except JSError WriteResult :=
  match t, dst with
  | ValueType.raw, Location.automerge _ _ =>
    Except.error (JSError.amt ("raw copy from automerge to automerge doesn't really make sense"))
  | _, _ =>
    match getAtPath srcDoc srcPath with
    | none => Except.error (JSError.runtime ("TypeError"))
    | some value => writeToLocation dst value t dstDoc

/-- What becomes of one call wrapped in `catchAMTErrors`. -/
inductive CatchOutcome : Type where
  | completed
  | loggedFatal (msg : String)
  | logged (msg : String)
  | rethrown (msg : String)
deriving Repr, DecidableEq

/-- shared.ts `catchAMTErrors`: an `AMTError` is logged as
`"error: " + message` and, when `fatal`, exits the process; any other
error is rethrown. -/
def catchAMTErrors (r : Except JSError Unit) (fatal : Bool) : CatchOutcome :=
  match r with
  | Except.ok _ => CatchOutcome.completed
  | Except.error (JSError.amt m) =>
    if fatal then CatchOutcome.loggedFatal ("error: " ++ m)
    else CatchOutcome.logged ("error: " ++ m)
  | Except.error (JSError.runtime m) => CatchOutcome.rethrown m

/-- The observable state of a watch-mode run over a finite sequence of
delivered change events. -/
structure WatchRun : Type where
  handled : Nat
  log : List String
  crashed : Bool
deriving Repr, DecidableEq

/-- Modelled from the spec: the watch-mode event loop around the per-event
listener `catchAMTErrors(async () => onDoc(e.doc), false)` registered in
`cpFromAutomerge` (and likewise for the file and pipe sources). The
listener body itself is source code; the delivery loop and the platform
rule that an uncaught exception terminates the process are the spec's
(sections 4.5 and 7): events are delivered in order, a logged `AMTError`
leaves the watcher running, and a rethrown error crashes the run, after
which no further event is processed. -/
def runWatcher {α : Type} (handler : α → Except JSError Unit) : List α → WatchRun
  | [] => WatchRun.mk 0 [] false
  | e :: es =>
    match catchAMTErrors (handler e) false with
    | CatchOutcome.completed =>
      let r := runWatcher handler es
      WatchRun.mk (r.handled + 1) r.log r.crashed
    | CatchOutcome.logged m =>
      let r := runWatcher handler es
      WatchRun.mk (r.handled + 1) (m :: r.log) r.crashed
    | CatchOutcome.loggedFatal m => WatchRun.mk 1 [m] false
    | CatchOutcome.rethrown _ => WatchRun.mk 0 [] true

/-- The spec's `TreeFile` shape without the claim's extra no-other-fields
restriction: an object with a string `contentType` field and a `contents`
field holding a string or a byte sequence. -/
def specTreeFileShape (v : JSValue) : Prop :=
  ∃ fs, v = JSValue.obj fs ∧
    (∃ ct, lookupField fs contentTypeKey = some (JSValue.str ct)) ∧
    (∃ c, lookupField fs contentsKey = some c ∧
      ((∃ s, c = JSValue.str s) ∨ (∃ bs, c = JSValue.bytes bs)))

/-- The claim C4 `TreeFile` reading: `specTreeFileShape` and additionally
no field other than `contentType` and `contents`. -/
def specTreeFileExact (v : JSValue) : Prop :=
  specTreeFileShape v ∧
    ∃ fs, v = JSValue.obj fs ∧ ∀ kv ∈ fs, kv.1 = contentTypeKey ∨ kv.1 = contentsKey

/-- The spec's `TreeDirectory` shape: a non-null object all of whose own
property values classify as part of a file tree. -/
def specTreeDirectory (v : JSValue) : Prop :=
  jsIsObject v = true ∧ ∀ w ∈ jsOwnValues v, isAMFS w = true

/-- The structured example value of the spec's testable properties,
`\x7b n: 5, s: "x" \x7d`. -/
def exampleNS : JSValue :=
  JSValue.obj [(("n").toList, JSValue.num 5), (("s").toList, JSValue.str (("x").toList))]

/-- An object carrying the `TreeFile` fields plus one extra field. -/
def exampleExtraFieldFile : JSValue :=
  JSValue.obj [(contentTypeKey, JSValue.str (("a").toList)),
    (contentsKey, JSValue.str (("b").toList)), (("z").toList, JSValue.null)]

/-- The spec's example tree file `\x7b contentType: "text/plain", contents: "hi" \x7d`. -/
def exampleFile : JSValue :=
  JSValue.obj [(contentTypeKey, JSValue.str (("text/plain").toList)),
    (contentsKey, JSValue.str (("hi").toList))]

/-!
Theorems. The helper lemmas come first, then one theorem per claim of the
specification, each with its witness or counterexample where called for.
-/

theorem splitChar_ne_nil (sep : Char) (s : List Char) : splitChar sep s ≠ [] := by
  cases s with
  | nil => simp [splitChar]
  | cons c rest =>
    simp only [splitChar]
    split <;> simp

theorem headI_cons_tail_of_ne_nil {α : Type} [Inhabited α] {l : List α} (h : l ≠ []) :
    l.headI :: l.tail = l := by
  cases l with
  | nil => exact absurd rfl h
  | cons a as => rfl

theorem joinChar_cons_cons (sep : Char) (x y : List Char) (ys : List (List Char)) :
    joinChar sep (x :: y :: ys) = x ++ sep :: joinChar sep (y :: ys) := rfl

theorem joinChar_splitChar (sep : Char) (s : List Char) :
    joinChar sep (splitChar sep s) = s := by
  induction s with
  | nil => rfl
  | cons c rest ih =>
    rcases hsp : splitChar sep rest with _ | ⟨h, t⟩
    · exact absurd hsp (splitChar_ne_nil sep rest)
    · rw [hsp] at ih
      by_cases hc : c = sep
      · have hs : splitChar sep (c :: rest) = [] :: splitChar sep rest := by
          simp [splitChar, hc]
        rw [hs, hsp, joinChar_cons_cons, List.nil_append, ih, hc]
      · have hs : splitChar sep (c :: rest) =
            (c :: (splitChar sep rest).headI) :: (splitChar sep rest).tail := by
          simp [splitChar, hc]
        rw [hs, hsp]
        simp only [List.headI, List.tail_cons]
        cases t with
        | nil =>
          show c :: h = c :: rest
          have hr : h = rest := ih
          rw [hr]
        | cons t0 ts =>
          rw [joinChar_cons_cons] at ih ⊢
          rw [List.cons_append, ih]

theorem stringify_parse (s : JSStr) (h : s ≠ ("-").toList) :
    stringifyLocation (parseLocation s) = s := by
  unfold parseLocation
  rw [if_neg h]
  by_cases hp : schemeMarker.isPrefixOf s = true
  · simp only [hp, if_true]
    show joinChar '/' ((splitChar '/' s).headI :: (splitChar '/' s).tail) = s
    rw [headI_cons_tail_of_ne_nil (splitChar_ne_nil '/' s), joinChar_splitChar]
  · simp only [hp, if_false]
    rfl

/-- C2 (amended): for every address string other than `"-"`,
`parseLocation` followed by `stringifyLocation` yields text that re-parses
to the same `Location`; in particular every document address and every
file path (including those colliding with the scheme marker, which already
parse as documents) round-trips. The stream address `"-"` is the one
exception, settled by the counterexample below. -/
theorem parse_stringify_roundtrip (s : JSStr) (h : s ≠ ("-").toList) :
    parseLocation (stringifyLocation (parseLocation s)) = parseLocation s := by
  rw [stringify_parse s h]

/-- Witness for C2: the document address `"automerge:abc/x/y"` round-trips. -/
theorem parse_stringify_roundtrip_witness :
    parseLocation (stringifyLocation (parseLocation (("automerge:abc/x/y").toList))) =
      parseLocation (("automerge:abc/x/y").toList) :=
  parse_stringify_roundtrip (("automerge:abc/x/y").toList) (by decide)

/-- C2 counterexample: the claim fails at the stream address `"-"`:
`stringifyLocation` renders the pipe as the tag `"pipe"`, which re-parses
as a file path, not as the pipe. -/
theorem parse_stringify_dash_counterexample :
    parseLocation (stringifyLocation (parseLocation (("-").toList))) ≠
      parseLocation (("-").toList) := by decide

theorem splitChar_eq_takeWhile_cons (sep : Char) (s : List Char) :
    splitChar sep s =
      s.takeWhile (fun c => c != sep) ::
        (if sep ∈ s then splitChar sep ((s.dropWhile (fun c => c != sep)).tail) else []) := by
  induction s with
  | nil => simp [splitChar]
  | cons c rest ih =>
    by_cases hc : c = sep
    · subst hc
      have hs : splitChar c (c :: rest) = [] :: splitChar c rest := by
        simp [splitChar]
      have ht : List.takeWhile (fun x => x != c) (c :: rest) = [] := by
        simp [List.takeWhile_cons]
      have hd : List.dropWhile (fun x => x != c) (c :: rest) = c :: rest := by
        simp [List.dropWhile_cons]
      rw [hs, ht, hd]
      simp [List.mem_cons, List.tail_cons]
    · have hs : splitChar sep (c :: rest) =
          (c :: (splitChar sep rest).headI) :: (splitChar sep rest).tail := by
        simp [splitChar, hc]
      have ht : List.takeWhile (fun x => x != sep) (c :: rest) =
          c :: List.takeWhile (fun x => x != sep) rest := by
        simp [List.takeWhile_cons, hc]
      have hd : List.dropWhile (fun x => x != sep) (c :: rest) =
          List.dropWhile (fun x => x != sep) rest := by
        simp [List.dropWhile_cons, hc]
      have hm : (sep ∈ c :: rest) ↔ (sep ∈ rest) := by
        rw [List.mem_cons]
        constructor
        · rintro (h | h)
          · exact absurd h.symm hc
          · exact h
        · exact Or.inr
      rw [hs, ih, ht, hd]
      simp only [List.headI, List.tail_cons]
      exact congrArg _ (if_congr hm.symm rfl rfl)

/-- C7: `parseLocation` is total over all strings; exactly `"-"` maps to
the pipe; text starting with the scheme marker maps to a document whose
identifier is the text up to (not including) the first `"/"` and whose
path is the `"/"`-split remainder (empty when there is no `"/"`); every
other string maps to a file path. -/
theorem parseLocation_total_spec (s : JSStr) :
    parseLocation s =
      (if s = ("-").toList then Location.pipe
       else if schemeMarker.isPrefixOf s then
         Location.automerge (s.takeWhile (fun c => c != '/'))
           (if '/' ∈ s then splitChar '/' ((s.dropWhile (fun c => c != '/')).tail) else [])
       else Location.file s) := by
  unfold parseLocation
  by_cases h1 : s = ("-").toList
  · simp [h1]
  · rw [if_neg h1, if_neg h1]
    by_cases h2 : schemeMarker.isPrefixOf s = true
    · rw [if_pos h2, if_pos h2, splitChar_eq_takeWhile_cons '/' s]
      rfl
    · rw [if_neg h2, if_neg h2]

theorem getLast?_append_singleton (a : Char) :
    ∀ (s : JSStr), (s ++ [a]).getLast? = some a
  | [] => rfl
  | [_] => rfl
  | c :: d :: rest => by
    rw [List.cons_append, List.cons_append, List.getLast?_cons_cons, ← List.cons_append]
    exact getLast?_append_singleton a (d :: rest)

/-- C1 (amended): a `Structured`-mode (`"json"`) write serializes the value
with `JSON.stringify` and appends a newline in both cases: a `FilePath`
destination gets the pretty-printed form (space `2`) and a `Stream`
destination gets the compact form (space `undefined`), and both texts end
in a trailing newline. (The claim's "no trailing newline" for the stream
destination is refuted by the counterexample below: the `+ "\n"` in the
source is unconditional.) -/
theorem writeToLocation_json_serialization (p : JSStr) (val doc : JSValue) :
    writeToLocation (Location.file p) val ValueType.json doc =
      Except.ok (WriteResult.fsOps [Effect.fileWrite p (IOData.text (jsonText val (some 2)))]) ∧
    writeToLocation Location.pipe val ValueType.json doc =
      Except.ok (WriteResult.fsOps [Effect.stdoutWrite (IOData.text (jsonText val none))]) ∧
    (jsonText val (some 2)).getLast? = some '\n' ∧
    (jsonText val none).getLast? = some '\n' :=
  ⟨rfl, rfl, getLast?_append_singleton '\n' _, getLast?_append_singleton '\n' _⟩

/-- C1 counterexample: writing `\x7b n: 5, s: "x" \x7d` in `Structured`
mode to the stream destination emits the compact text `\x7b"n":5,"s":"x"\x7d`
followed by a trailing newline — so the claim's "compact text with no
trailing newline" is false on the code. -/
theorem writeToLocation_pipe_newline_counterexample :
    writeToLocation Location.pipe exampleNS ValueType.json JSValue.null =
      Except.ok (WriteResult.fsOps [Effect.stdoutWrite (IOData.text
        ((("\x7b\"n\":5,\"s\":\"x\"\x7d").toList) ++ ['\n']))]) ∧
    ((("\x7b\"n\":5,\"s\":\"x\"\x7d").toList) ++ ['\n']).getLast? = some '\n' :=
  ⟨rfl, rfl⟩

/-- C5: a `Tree`-mode (`"fs"`) copy to a destination that is not a file
path — the pipe or a document — fails with the `AMTError` configuration
message before any I/O occurs (an error result carries no effect and no
document change). -/
theorem treeMode_nonFile_configurationError (val doc : JSValue) (u : JSStr)
    (path : List JSStr) :
    writeToLocation Location.pipe val ValueType.fs doc =
      Except.error (JSError.amt ("value type \"fs\" can be only written to file system")) ∧
    writeToLocation (Location.automerge u path) val ValueType.fs doc =
      Except.error (JSError.amt ("value type \"fs\" can be only written to file system")) :=
  ⟨rfl, rfl⟩

/-- C6: a `Raw`-mode copy whose source and destination are both automerge
documents raises the `AMTError` configuration error, for every source and
destination path and any document contents. -/
theorem rawDocToDoc_configurationError (srcPath : List JSStr) (u : JSStr)
    (dstPath : List JSStr) (srcDoc dstDoc : JSValue) :
    cpFromAutomergeOnce srcPath (Location.automerge u dstPath) ValueType.raw srcDoc dstDoc =
      Except.error
        (JSError.amt ("raw copy from automerge to automerge doesn't really make sense")) :=
  rfl

theorem lookup_setField_self (fs : List (JSStr × JSValue)) (k : JSStr) (v : JSValue) :
    lookupField (setField fs k v) k = some v := by
  induction fs with
  | nil => simp [setField, lookupField]
  | cons kv rest ih =>
    obtain ⟨k0, w⟩ := kv
    by_cases hk : k0 = k
    · simp [setField, lookupField, hk]
    · simp [setField, lookupField, hk, ih]

theorem lookup_setField_other (fs : List (JSStr × JSValue)) (k k' : JSStr) (v : JSValue)
    (h : k' ≠ k) :
    lookupField (setField fs k v) k' = lookupField fs k' := by
  induction fs with
  | nil =>
    simp only [setField, lookupField]
    rw [if_neg (fun hh => h hh.symm)]
  | cons kv rest ih =>
    obtain ⟨k0, w⟩ := kv
    by_cases hk : k0 = k
    · subst hk
      simp only [setField, if_pos rfl, lookupField]
      rw [if_neg (fun hh => h hh.symm), if_neg (fun hh => h hh.symm)]
    · simp only [setField, if_neg hk, lookupField]
      by_cases hk' : k0 = k'
      · simp [hk']
      · simp [hk', ih]

theorem assignEntries_obj_lookup (entries : List (JSStr × JSValue)) :
    ∀ dfs : List (JSStr × JSValue), ∃ fs',
      assignEntries (JSValue.obj dfs) entries = some (JSValue.obj fs') ∧
      ∀ k, lookupField fs' k =
        (match lastEntryValue entries k with
         | some v => some v
         | none => lookupField dfs k) := by
  induction entries with
  | nil => exact fun dfs => ⟨dfs, rfl, fun k => rfl⟩
  | cons kv rest ih =>
    obtain ⟨k0, v0⟩ := kv
    intro dfs
    obtain ⟨fs', hrun, hlook⟩ := ih (setField dfs k0 v0)
    refine ⟨fs', by simpa [assignEntries, assignProp] using hrun, ?_⟩
    intro k
    rw [hlook k,
      show lastEntryValue ((k0, v0) :: rest) k =
        (match lastEntryValue rest k with
         | some v => some v
         | none => if k0 = k then some v0 else none) from rfl]
    rcases hr : lastEntryValue rest k with _ | v
    · by_cases hk : k0 = k
      · subst hk
        rw [if_pos rfl, lookup_setField_self]
      · rw [if_neg hk, lookup_setField_other dfs k0 k v0 (fun hh => hk hh.symm)]
    · rfl

theorem lastEntryValue_eq_none_of_not_mem (entries : List (JSStr × JSValue)) (k : JSStr)
    (h : k ∉ entries.map Prod.fst) : lastEntryValue entries k = none := by
  induction entries with
  | nil => rfl
  | cons kv rest ih =>
    obtain ⟨k0, v0⟩ := kv
    rw [List.map_cons, List.mem_cons] at h
    have h1 : ¬ k = k0 := fun hh => h (Or.inl hh)
    have h2 : k ∉ rest.map Prod.fst := fun hh => h (Or.inr hh)
    show (match lastEntryValue rest k with
          | some v => some v
          | none => if k0 = k then some v0 else none) = none
    rw [ih h2, if_neg (fun hh => h1 hh.symm)]

/-- C3: a `Structured`-mode write to a document destination with an empty
path: a value that is not a non-null object raises the `AMTError` shape
error (and, the write transaction aborting, the document is unchanged — an
error result carries no document change); a non-null object has its
entries assigned one by one into the document root: every key of the
value ends up in the root bearing the value assigned for it (the last
entry's value, mirroring the sequential loop), and every pre-existing
root key not occurring among the value's keys keeps its value. -/
theorem structured_docRoot_merge (u : JSStr) (dfs : List (JSStr × JSValue)) (val : JSValue) :
    (jsIsObject val = false →
      writeToLocation (Location.automerge u []) val ValueType.json (JSValue.obj dfs) =
        Except.error (JSError.amt ("only an object can be written to a document root"))) ∧
    (jsIsObject val = true →
      ∃ fs', writeToLocation (Location.automerge u []) val ValueType.json (JSValue.obj dfs) =
          Except.ok (WriteResult.docChange (JSValue.obj fs')) ∧
        (∀ k v', lastEntryValue (jsEntries val) k = some v' → lookupField fs' k = some v') ∧
        (∀ k, k ∉ (jsEntries val).map Prod.fst → lookupField fs' k = lookupField dfs k)) := by
  constructor
  · intro h
    simp [writeToLocation, h]
  · intro h
    obtain ⟨fs', hrun, hlook⟩ := assignEntries_obj_lookup (jsEntries val) dfs
    refine ⟨fs', by simp [writeToLocation, h, hrun], ?_, ?_⟩
    · intro k v' hv
      rw [hlook k, hv]
    · intro k hk
      rw [hlook k, lastEntryValue_eq_none_of_not_mem (jsEntries val) k hk]

theorem getAtPath_cons (v : JSValue) (k : JSStr) (rest : List JSStr) :
    getAtPath v (k :: rest) =
      (match getProp v k with
       | none => none
       | some w => getAtPath w rest) := rfl

theorem setAtPath_cons_cons (doc : JSValue) (k k2 : JSStr) (rest2 : List JSStr)
    (v : JSValue) :
    setAtPath doc (k :: k2 :: rest2) v =
      (match getProp doc k with
       | none => none
       | some child =>
         match setAtPath child (k2 :: rest2) v with
         | none => none
         | some child' => assignProp doc k child') := rfl

theorem objSkeleton_cons_cons (fs : List (JSStr × JSValue)) (k k2 : JSStr)
    (rest2 : List JSStr) :
    objSkeleton (JSValue.obj fs) (k :: k2 :: rest2) =
      (match lookupField fs k with
       | some w => objSkeleton w (k2 :: rest2)
       | _ => false) := rfl

theorem getProp_obj_setField_self (fs : List (JSStr × JSValue)) (k : JSStr) (v : JSValue) :
    getProp (JSValue.obj (setField fs k v)) k = some v := by
  show some ((lookupField (setField fs k v) k).getD JSValue.undef) = some v
  rw [lookup_setField_self]
  rfl

theorem getAtPath_setAtPath (v : JSValue) :
    ∀ (path : List JSStr) (doc : JSValue), objSkeleton doc path = true →
      ∃ doc', setAtPath doc path v = some doc' ∧ getAtPath doc' path = some v := by
  intro path
  induction path with
  | nil => intro doc h; simp [objSkeleton] at h
  | cons k rest ih =>
    intro doc h
    cases doc with
    | obj fs =>
      cases rest with
      | nil =>
        refine ⟨JSValue.obj (setField fs k v), rfl, ?_⟩
        rw [getAtPath_cons, getProp_obj_setField_self]
        exact rfl
      | cons k2 rest2 =>
        rw [objSkeleton_cons_cons] at h
        rcases hw : lookupField fs k with _ | w
        · rw [hw] at h
          exact absurd h (by simp)
        · rw [hw] at h
          obtain ⟨w', hset, hget⟩ := ih w h
          refine ⟨JSValue.obj (setField fs k w'), ?_, ?_⟩
          · rw [setAtPath_cons_cons]
            have hg : getProp (JSValue.obj fs) k = some w := by
              show some ((lookupField fs k).getD JSValue.undef) = some w
              rw [hw]
              rfl
            rw [hg]
            show (match setAtPath w (k2 :: rest2) v with
                  | none => none
                  | some child' => assignProp (JSValue.obj fs) k child') =
              some (JSValue.obj (setField fs k w'))
            rw [hset]
            exact rfl
          · rw [getAtPath_cons, getProp_obj_setField_self]
            exact hget
    | undef => simp [objSkeleton] at h
    | null => simp [objSkeleton] at h
    | bool b => simp [objSkeleton] at h
    | num n => simp [objSkeleton] at h
    | str s => simp [objSkeleton] at h
    | bytes bs => simp [objSkeleton] at h
    | arr xs => simp [objSkeleton] at h

/-- C8: for every non-empty key path into a pre-existing nested-object
skeleton (every intermediate key present and mapping to an object) and
every value, `setAtPath` succeeds and `getAtPath` on the updated document
returns the value just written. -/
theorem setAtPath_getAtPath_roundtrip (doc : JSValue) (path : List JSStr) (v : JSValue)
    (_hne : path ≠ []) (hskel : objSkeleton doc path = true) :
    ∃ doc', setAtPath doc path v = some doc' ∧ getAtPath doc' path = some v :=
  getAtPath_setAtPath v path doc hskel

/-- Witness for C8 at the document `\x7b a: \x7b\x7d \x7d`, the path
`["a", "b"]` and the value `7`. -/
theorem setAtPath_getAtPath_roundtrip_witness :
    ∃ doc', setAtPath (JSValue.obj [((("a").toList), JSValue.obj [])])
        [("a").toList, ("b").toList] (JSValue.num 7) = some doc' ∧
      getAtPath doc' [("a").toList, ("b").toList] = some (JSValue.num 7) :=
  setAtPath_getAtPath_roundtrip (JSValue.obj [((("a").toList), JSValue.obj [])])
    [("a").toList, ("b").toList] (JSValue.num 7) (by decide) (by decide)

theorem isAMFSFile_iff (v : JSValue) : isAMFSFile v = true ↔ specTreeFileShape v := by
  cases v with
  | obj fs =>
    constructor
    · intro h
      have h' : ((match lookupField fs contentTypeKey with
                  | some (JSValue.str _) => true
                  | _ => false) &&
                 (match lookupField fs contentsKey with
                  | some (JSValue.str _) => true
                  | some (JSValue.bytes _) => true
                  | _ => false)) = true := h
      rw [Bool.and_eq_true] at h'
      obtain ⟨h1, h2⟩ := h'
      refine ⟨fs, rfl, ?_, ?_⟩
      · rcases hct : lookupField fs contentTypeKey with _ | w
        · rw [hct] at h1
          exact Bool.noConfusion h1
        · rw [hct] at h1
          rcases w with _ | _ | b | n | s | bs | xs | gs
          · exact Bool.noConfusion h1
          · exact Bool.noConfusion h1
          · exact Bool.noConfusion h1
          · exact Bool.noConfusion h1
          · exact ⟨s, rfl⟩
          · exact Bool.noConfusion h1
          · exact Bool.noConfusion h1
          · exact Bool.noConfusion h1
      · rcases hc : lookupField fs contentsKey with _ | w
        · rw [hc] at h2
          exact Bool.noConfusion h2
        · rw [hc] at h2
          rcases w with _ | _ | b | n | s | bs | xs | gs
          · exact Bool.noConfusion h2
          · exact Bool.noConfusion h2
          · exact Bool.noConfusion h2
          · exact Bool.noConfusion h2
          · exact ⟨JSValue.str s, rfl, Or.inl ⟨s, rfl⟩⟩
          · exact ⟨JSValue.bytes bs, rfl, Or.inr ⟨bs, rfl⟩⟩
          · exact Bool.noConfusion h2
          · exact Bool.noConfusion h2
    · rintro ⟨fs', heq, ⟨ct, hct⟩, ⟨c, hc, hcs⟩⟩
      injection heq with hfs
      subst hfs
      show ((match lookupField fs contentTypeKey with
             | some (JSValue.str _) => true
             | _ => false) &&
            (match lookupField fs contentsKey with
             | some (JSValue.str _) => true
             | some (JSValue.bytes _) => true
             | _ => false)) = true
      rw [Bool.and_eq_true]
      constructor
      · rw [hct]
      · rcases hcs with ⟨s, rfl⟩ | ⟨bs, rfl⟩ <;> rw [hc]
  | undef =>
    exact ⟨fun h => Bool.noConfusion h, fun ⟨fs, heq, _, _⟩ => JSValue.noConfusion heq⟩
  | null =>
    exact ⟨fun h => Bool.noConfusion h, fun ⟨fs, heq, _, _⟩ => JSValue.noConfusion heq⟩
  | bool b =>
    exact ⟨fun h => Bool.noConfusion h, fun ⟨fs, heq, _, _⟩ => JSValue.noConfusion heq⟩
  | num n =>
    exact ⟨fun h => Bool.noConfusion h, fun ⟨fs, heq, _, _⟩ => JSValue.noConfusion heq⟩
  | str s =>
    exact ⟨fun h => Bool.noConfusion h, fun ⟨fs, heq, _, _⟩ => JSValue.noConfusion heq⟩
  | bytes bs =>
    exact ⟨fun h => Bool.noConfusion h, fun ⟨fs, heq, _, _⟩ => JSValue.noConfusion heq⟩
  | arr xs =>
    exact ⟨fun h => Bool.noConfusion h, fun ⟨fs, heq, _, _⟩ => JSValue.noConfusion heq⟩

theorem isAMFSFields_iff (fs : List (JSStr × JSValue)) :
    isAMFSFields fs = true ↔ ∀ w ∈ fs.map Prod.snd, isAMFS w = true := by
  induction fs with
  | nil => simp [isAMFSFields]
  | cons kv rest ih =>
    obtain ⟨k, w0⟩ := kv
    rw [show isAMFSFields ((k, w0) :: rest) =
        ((isAMFSFile w0 || isAMFSDirectory w0) && isAMFSFields rest) from rfl,
      Bool.and_eq_true, ih]
    simp [List.forall_mem_cons, isAMFS]

theorem isAMFSElems_iff (xs : List JSValue) :
    isAMFSElems xs = true ↔ ∀ w ∈ xs, isAMFS w = true := by
  induction xs with
  | nil => simp [isAMFSElems]
  | cons x rest ih =>
    rw [show isAMFSElems (x :: rest) =
        ((isAMFSFile x || isAMFSDirectory x) && isAMFSElems rest) from rfl,
      Bool.and_eq_true, ih]
    simp [List.forall_mem_cons, isAMFS]

theorem isAMFSBytesValues_iff (bs : List Nat) :
    (bs.all (fun b => isAMFSFile (JSValue.num (Int.ofNat b)) ||
        jsIsObject (JSValue.num (Int.ofNat b)))) = true ↔
      ∀ w ∈ bs.map (fun b => JSValue.num (Int.ofNat b)), isAMFS w = true := by
  rw [List.all_eq_true]
  constructor
  · intro h w hw
    rw [List.mem_map] at hw
    obtain ⟨b, hb, rfl⟩ := hw
    exact Bool.noConfusion (h b hb)
  · intro h b hb
    exact Bool.noConfusion (h (JSValue.num (Int.ofNat b)) (List.mem_map.mpr ⟨b, hb, rfl⟩))

theorem isAMFSDirectory_iff (v : JSValue) :
    isAMFSDirectory v = true ↔ specTreeDirectory v := by
  cases v with
  | obj fs =>
    rw [show isAMFSDirectory (JSValue.obj fs) =
        (jsIsObject (JSValue.obj fs) && isAMFSFields fs) from rfl,
      Bool.and_eq_true, isAMFSFields_iff]
    simp [specTreeDirectory, jsIsObject, jsOwnValues]
  | arr xs =>
    rw [show isAMFSDirectory (JSValue.arr xs) =
        (jsIsObject (JSValue.arr xs) && isAMFSElems xs) from rfl,
      Bool.and_eq_true, isAMFSElems_iff]
    simp [specTreeDirectory, jsIsObject, jsOwnValues]
  | bytes bs =>
    rw [show isAMFSDirectory (JSValue.bytes bs) =
        (jsIsObject (JSValue.bytes bs) &&
          bs.all (fun b => isAMFSFile (JSValue.num (Int.ofNat b)) ||
            jsIsObject (JSValue.num (Int.ofNat b)))) from rfl,
      Bool.and_eq_true, isAMFSBytesValues_iff]
    simp [specTreeDirectory, jsIsObject, jsOwnValues]
  | undef =>
    rw [show isAMFSDirectory JSValue.undef = false from rfl]
    simp [specTreeDirectory, jsIsObject]
  | null =>
    rw [show isAMFSDirectory JSValue.null = false from rfl]
    simp [specTreeDirectory, jsIsObject]
  | bool b =>
    rw [show isAMFSDirectory (JSValue.bool b) = false from rfl]
    simp [specTreeDirectory, jsIsObject]
  | num n =>
    rw [show isAMFSDirectory (JSValue.num n) = false from rfl]
    simp [specTreeDirectory, jsIsObject]
  | str s =>
    rw [show isAMFSDirectory (JSValue.str s) = false from rfl]
    simp [specTreeDirectory, jsIsObject]

/-- C4 (amended): a value classifies as a `TreeFile` exactly when it is an
object with a string `contentType` field and a `contents` field holding a
string or a byte sequence — fields beyond those two are permitted (the
claim's "no other fields" is refuted by the counterexample below) — and
classifies as a `TreeDirectory` exactly when it is a non-null object all
of whose own property values recursively classify as part of a file tree,
the empty object being an empty directory. -/
theorem treeClassification_amended (v : JSValue) :
    (isAMFSFile v = true ↔ specTreeFileShape v) ∧
    (isAMFSDirectory v = true ↔ specTreeDirectory v) ∧
    isAMFSDirectory (JSValue.obj []) = true :=
  ⟨isAMFSFile_iff v, isAMFSDirectory_iff v, rfl⟩

/-- C4 counterexample: the object with fields `contentType: "a"`,
`contents: "b"` and the extra field `z: null` is classified by
`isAMFSFile` as a `TreeFile`, although it has a field other than the two
the claim permits — so the claim's "exactly ... (no other fields)"
biconditional is false on the code. -/
theorem treeFile_extraField_counterexample :
    isAMFSFile exampleExtraFieldFile = true ∧ ¬ specTreeFileExact exampleExtraFieldFile := by
  constructor
  · rfl
  · rintro ⟨-, fs, hfs, hall⟩
    injection (show JSValue.obj [(contentTypeKey, JSValue.str (("a").toList)),
        (contentsKey, JSValue.str (("b").toList)), (("z").toList, JSValue.null)] =
        JSValue.obj fs from hfs) with h
    rcases hall (("z").toList, JSValue.null) (by rw [← h]; simp) with hz | hz
    · exact absurd hz (by decide)
    · exact absurd hz (by decide)

/-- C9: any `AMTError` raised while processing a single change event is
caught at the per-event boundary (`catchAMTErrors` with `fatal := false`),
logged to the error stream, and does not terminate the watcher — the
remaining events are processed exactly as they would have been; any other
failure is rethrown and terminates the run, processing nothing further. -/
theorem watchMode_amtError_isolation {α : Type} (handler : α → Except JSError Unit)
    (e : α) (es : List α) (m : String) :
    (handler e = Except.error (JSError.amt m) →
      runWatcher handler (e :: es) =
        WatchRun.mk ((runWatcher handler es).handled + 1)
          (("error: " ++ m) :: (runWatcher handler es).log)
          (runWatcher handler es).crashed) ∧
    (handler e = Except.error (JSError.runtime m) →
      runWatcher handler (e :: es) = WatchRun.mk 0 [] true) := by
  constructor
  · intro h
    simp [runWatcher, catchAMTErrors, h]
  · intro h
    simp [runWatcher, catchAMTErrors, h]

theorem writeElems_enumFrom (p : JSStr) :
    ∀ (xs : List JSValue) (i : Nat),
      writeElems xs i p =
        (xs.enumFrom i).flatMap (fun e => writeAMFS e.2 (p ++ '/' :: natToJsStr e.1)) := by
  intro xs
  induction xs with
  | nil => intro i; rfl
  | cons x rest ih =>
    intro i
    rw [show writeElems (x :: rest) i p =
        writeAMFS x (p ++ '/' :: natToJsStr i) ++ writeElems rest (i + 1) p from rfl, ih]
    rfl

/-- C10: a JavaScript array all of whose elements classify as part of a
file tree — the empty array included — is classified by `isAMFSDirectory`
as a directory, and a `Tree`-mode (`"fs"`) write of such an array to a
file path succeeds: it ensures the directory at the path and materializes
each element under an entry named by its decimal index `"0"`, `"1"`, ... -/
theorem arrayDirectory_treeWrite (xs : List JSValue) (p : JSStr) (doc : JSValue)
    (h : isAMFSElems xs = true) :
    isAMFSDirectory (JSValue.arr xs) = true ∧
    writeToLocation (Location.file p) (JSValue.arr xs) ValueType.fs doc =
      Except.ok (WriteResult.fsOps (Effect.ensureDir p ::
        (xs.enum.flatMap (fun e => writeAMFS e.2 (p ++ '/' :: natToJsStr e.1))))) := by
  have hdir : isAMFSDirectory (JSValue.arr xs) = true := by
    rw [show isAMFSDirectory (JSValue.arr xs) =
        (jsIsObject (JSValue.arr xs) && isAMFSElems xs) from rfl, h]
    rfl
  refine ⟨hdir, ?_⟩
  have hamfs : isAMFS (JSValue.arr xs) = true := by
    rw [isAMFS, hdir, Bool.or_true]
  rw [show writeToLocation (Location.file p) (JSValue.arr xs) ValueType.fs doc =
      (if isAMFS (JSValue.arr xs) then
        Except.ok (WriteResult.fsOps (writeAMFS (JSValue.arr xs) p))
       else Except.error
        (JSError.amt ("value must be an automerge file object to copy in fs mode"))) from rfl,
    if_pos hamfs,
    show writeAMFS (JSValue.arr xs) p =
      (if isAMFSFile (JSValue.arr xs) then [Effect.fileWrite p (amfsContents (JSValue.arr xs))]
       else Effect.ensureDir p :: writeElems xs 0 p) from rfl,
    if_neg (fun hh => Bool.noConfusion (hh : isAMFSFile (JSValue.arr xs) = true)),
    writeElems_enumFrom]
  rfl

/-- Witness for C10 at the one-element array holding the spec's example
tree file, written under the path `"out"`. -/
theorem arrayDirectory_treeWrite_witness :
    isAMFSDirectory (JSValue.arr [exampleFile]) = true ∧
    writeToLocation (Location.file (("out").toList)) (JSValue.arr [exampleFile])
        ValueType.fs JSValue.null =
      Except.ok (WriteResult.fsOps (Effect.ensureDir (("out").toList) ::
        (([exampleFile].enum).flatMap
          (fun e => writeAMFS e.2 ((("out").toList) ++ '/' :: natToJsStr e.1))))) :=
  arrayDirectory_treeWrite [exampleFile] (("out").toList) JSValue.null (by decide)

end AMTool
